import Mathlib

/-!
Verification of the position-accounting engine of the portfolio dashboard.

The definitions below are a shallow embedding of the canonical
`positionCalculator` module (the complete variant with short entry/cover
handling): `isCashAsset`, `isTHBCash`, `cashFaceValueUSD`, `createPosition`,
`calculatePositions` (seed / replay / cleanup), `enrichPositions` and
`computePortfolioSummary`.  JavaScript numbers are modelled as exact
rationals (`ℚ`), JavaScript objects keyed by ticker as association lists in
insertion order, and the stable `Array.prototype.sort` as a stable insertion
sort over the comparator's strictly-before relation.
-/

set_option maxRecDepth 100000

namespace PF

/-- Uppercase a string, an ASCII model of `String.prototype.toUpperCase`. -/
def strUpper (s : String) : String :=
  String.mk (s.data.map Char.toUpper)

/-- Boolean test that the first list is a prefix of the second. -/
def listPrefixEq : List Char → List Char → Bool
  | [], _ => true
  | _ :: _, [] => false
  | a :: as, b :: bs => a == b && listPrefixEq as bs

/-- Boolean test that string `p` is a prefix of string `s` (`s.startsWith(p)`). -/
def strStarts (s p : String) : Bool :=
  listPrefixEq p.data s.data

/-- JavaScript `x || d` for an optional string: `none` and the empty string are falsy. -/
def orDefault (s : Option String) (d : String) : String :=
  match s with
  | none => d
  | some v => if v = "" then d else v

/-- The floating-point dust threshold `DUST = 1e-9` of the calculator. -/
def DUST : ℚ := 1 / 1000000000

/-- Cash/stablecoin test on an already-uppercased ticker, the body of `isCashAsset`. -/
def isCashAssetU (t : String) : Bool :=
  strStarts t "CASH-" || t == "USD" || t == "THB" || t == "USDT" ||
    t == "USDC" || t == "BUSD" || t == "DAI" || t == "TUSD"

/-- `isCashAsset(ticker)`: falsy tickers are not cash; otherwise test the uppercased ticker. -/
def isCashAsset (ticker : String) : Bool :=
  if ticker = "" then false else isCashAssetU (strUpper ticker)

/-- THB-cash test on an already-uppercased ticker, the body of `isTHBCash`. -/
def isTHBCashU (t : String) : Bool :=
  t == "THB" || t == "CASH-THB"

/-- `isTHBCash(ticker)`: falsy tickers are not THB cash; otherwise test the uppercased ticker. -/
def isTHBCash (ticker : String) : Bool :=
  if ticker = "" then false else isTHBCashU (strUpper ticker)

/-- Face value of one unit of cash in USD for an uppercased ticker:
`1/(fxRate || 35)` for THB cash and `1.0` otherwise. -/
def cashFaceU (t : String) (fxRateUSDTHB : ℚ) : ℚ :=
  if isTHBCashU t = true then 1 / (if fxRateUSDTHB = 0 then 35 else fxRateUSDTHB) else 1

/-- `cashFaceValueUSD(ticker, fxRateUSDTHB)`: `1/(fxRateUSDTHB || 35)` for THB cash,
`1.0` for every other (USD-class) cash ticker.  The `|| 35` guard only
replaces a falsy (zero) rate; a negative rate is used as-is. -/
def cashFaceValueUSD (ticker : String) (fxRateUSDTHB : ℚ) : ℚ :=
  if isTHBCash ticker = true then 1 / (if fxRateUSDTHB = 0 then 35 else fxRateUSDTHB) else 1

/-- The position record built by the calculator. -/
structure Position where
  ticker : String
  asset_type : String
  quantity : ℚ
  avg_cost : ℚ
  cost_basis : ℚ
  cost_currency : String
  realized_pnl : ℚ
deriving Repr, DecidableEq

/-- `createPosition(ticker, assetType, costCurrency)`. -/
def createPosition (ticker : String) (assetType : Option String) (costCurrency : String) : Position :=
  { ticker := ticker
    asset_type := orDefault assetType "other"
    quantity := 0
    avg_cost := 0
    cost_basis := 0
    cost_currency := if costCurrency = "" then "USD" else costCurrency
    realized_pnl := 0 }

/-- The position map: ticker-keyed object in insertion order. -/
abbrev PosMap : Type := List (String × Position)

/-- Association-list lookup on string keys. -/
def alookup {β : Type} : List (String × β) → String → Option β
  | [], _ => none
  | e :: rest, k => if e.1 = k then some e.2 else alookup rest k

/-- Replace the value stored under key `k`. -/
def replaceEntry (m : PosMap) (k : String) (v : Position) : PosMap :=
  m.map (fun e => if e.1 = k then (k, v) else e)

/-- The asset-type upgrade performed by `getPos`: a non-empty, non-`other`
asset type replaces a placeholder `other`. -/
def upgradeAT (assetType : Option String) (p : Position) : Position :=
  match assetType with
  | none => p
  | some a => if (¬a = "" ∧ ¬a = "other") ∧ p.asset_type = "other"
      then { p with asset_type := a } else p

/-- The get-or-create-then-mutate pattern of `getPos`: fetch (or create) the
position under the uppercased ticker, upgrade its asset type, apply the
mutation `f`, and store the result. -/
def withPos (m : PosMap) (ticker : String) (assetType : Option String)
    (costCur : String) (f : Position → Position) : PosMap :=
  let k := strUpper ticker
  match alookup m k with
  | some p => replaceEntry m k (f (upgradeAT assetType p))
  | none => m ++ [(k, f (upgradeAT assetType (createPosition k assetType costCur)))]

/-- An initial-balance row (`initial_positions` table). -/
structure InitRow where
  ticker : Option String
  asset_type : Option String
  quantity : ℚ
  avg_cost : ℚ
  cost_currency : Option String
deriving Repr, DecidableEq

/-- A ledger row (`transactions` table).  Absent numeric fields are the `0`
that `Number(x) || 0` coerces them to; `fx_rate_at_time ≤ 0` stands for an
absent or unusable transaction-time rate. -/
structure Tx where
  from_ticker : Option String
  from_amount : ℚ
  from_asset_type : Option String
  to_ticker : Option String
  to_amount : ℚ
  to_asset_type : Option String
  fees : ℚ
  fee_currency : Option String
  transaction_currency : String
  fx_rate_at_time : ℚ
  transaction_date : ℕ
deriving Repr, DecidableEq

/-- Seeding one position from an initial balance (STEP 1 of the calculator):
cash takes face value and ignores the stated average cost, non-cash takes the
stated numbers verbatim with `cost_basis = |quantity| × avg_cost`. -/
def seedUpdate (fx : ℚ) (ticker : String) (qty avgCost : ℚ) (cur : String)
    (p : Position) : Position :=
  if isCashAsset ticker = true then
    let faceUSD := cashFaceValueUSD ticker fx
    { p with quantity := qty, avg_cost := faceUSD, cost_basis := qty * faceUSD,
             cost_currency := "USD" }
  else
    { p with quantity := qty, avg_cost := avgCost, cost_basis := |qty| * avgCost,
             cost_currency := cur }

/-- One iteration of the seeding loop over `initialPositions`. -/
def seedStep (fx : ℚ) (m : PosMap) (row : InitRow) : PosMap :=
  match row.ticker with
  | none => m
  | some t0 =>
    if t0 = "" then m
    else
      let ticker := strUpper t0
      let cur := if row.cost_currency = some "THB" then "THB" else "USD"
      withPos m ticker row.asset_type cur
        (seedUpdate fx ticker row.quantity row.avg_cost cur)

/-- The TO-side mutation of a transaction: receiving `unitsIn` of `ticker`.
Cash is restamped at face value; a short position is covered over
`min(unitsIn, |quantity|)` units; otherwise a weighted-average buy. -/
def toSideUpdate (ticker : String) (unitsIn fromAmt feesToSide txFxRate : ℚ)
    (txCur : String) (p : Position) : Position :=
  if isCashAsset ticker = true then
    let face := cashFaceValueUSD ticker txFxRate
    let q := p.quantity + unitsIn
    { p with quantity := q, avg_cost := face, cost_basis := |q| * face,
             cost_currency := "USD" }
  else if p.quantity < 0 then
    let unitsCovered := min unitsIn |p.quantity|
    let pricePerUnit := if 0 < unitsCovered then fromAmt / unitsCovered else 0
    let q := p.quantity + unitsCovered
    { p with realized_pnl := p.realized_pnl + (p.avg_cost - pricePerUnit) * unitsCovered,
             quantity := q, cost_basis := |q| * p.avg_cost }
  else
    let totalCostIn := fromAmt + feesToSide
    let q := p.quantity + unitsIn
    let cb := p.cost_basis + totalCostIn
    { p with quantity := q, cost_basis := cb,
             avg_cost := if 0 < q then cb / q else 0,
             cost_currency := if txCur = "" then p.cost_currency else txCur }

/-- The FROM-side mutation of a transaction: giving up `fromAmt` of `ticker`.
Cash is deducted at face value; a long position realizes P&L with average
cost preserved (with the dust clamp); otherwise a short entry that
weighted-averages the short's cost. -/
def fromSideUpdate (ticker : String) (fromAmt toAmt feesFromSide txFxRate : ℚ)
    (p : Position) : Position :=
  if isCashAsset ticker = true then
    let totalDeducted := fromAmt + feesFromSide
    let face := cashFaceValueUSD ticker txFxRate
    let q := p.quantity - totalDeducted
    { p with quantity := q, avg_cost := face, cost_basis := |q| * face,
             cost_currency := "USD" }
  else if 0 < p.quantity then
    let totalUnitsSold := fromAmt + feesFromSide
    let safeQty := max p.quantity (1 / 1000000000)
    let avgCostPerUnit := p.cost_basis / safeQty
    let costOfSold := totalUnitsSold * avgCostPerUnit
    let cb := p.cost_basis - costOfSold
    let q := p.quantity - totalUnitsSold
    if q < DUST then
      { p with realized_pnl := p.realized_pnl + (toAmt - costOfSold),
               cost_basis := 0, quantity := 0 }
    else
      { p with realized_pnl := p.realized_pnl + (toAmt - costOfSold),
               cost_basis := cb, quantity := q }
  else
    let pricePerUnit := if 0 < fromAmt then toAmt / fromAmt else 0
    let prevShortQty := |p.quantity|
    let newShortQty := prevShortQty + fromAmt
    let cb := p.cost_basis + fromAmt * pricePerUnit
    { p with quantity := p.quantity - fromAmt, cost_basis := cb,
             avg_cost := if 0 < newShortQty then cb / newShortQty else pricePerUnit }

/-- Truthiness of an optional ticker field. -/
def present : Option String → Bool
  | none => false
  | some s => !(s == "")

/-- The effective fx rate of a transaction: `fx_rate_at_time` when positive,
otherwise the current rate. -/
def txEffRate (fx : ℚ) (tx : Tx) : ℚ :=
  if 0 < tx.fx_rate_at_time then tx.fx_rate_at_time else fx

/-- The TO side of a transaction, gated on a present ticker and positive amount. -/
def toStep (fx : ℚ) (tx : Tx) (m : PosMap) : PosMap :=
  match tx.to_ticker with
  | some tt =>
    if ¬tt = "" ∧ 0 < tx.to_amount then
      withPos m tt tx.to_asset_type tx.transaction_currency
        (toSideUpdate tt tx.to_amount tx.from_amount
          (if tx.fee_currency = some tt then |tx.fees| else 0) (txEffRate fx tx)
          tx.transaction_currency)
    else m
  | none => m

/-- The FROM side of a transaction, gated on a present ticker and positive amount. -/
def fromStep (fx : ℚ) (tx : Tx) (m : PosMap) : PosMap :=
  match tx.from_ticker with
  | some ft =>
    if ¬ft = "" ∧ 0 < tx.from_amount then
      withPos m ft tx.from_asset_type tx.transaction_currency
        (fromSideUpdate ft tx.from_amount tx.to_amount
          (if tx.fee_currency = some ft then |tx.fees| else 0) (txEffRate fx tx))
    else m
  | none => m

/-- Replay of one ledger row (STEP 2): resolve the effective fx rate, then
apply the TO side and the FROM side independently. -/
def applyTx (fx : ℚ) (m : PosMap) (tx : Tx) : PosMap :=
  fromStep fx tx (toStep fx tx m)

/-- Stable insertion of `x` after every element strictly before it. -/
def sInsert {α : Type} (lt : α → α → Bool) (x : α) : List α → List α
  | [] => [x]
  | y :: l => if lt y x then y :: sInsert lt x l else x :: y :: l

/-- Stable sort by the strictly-before relation `lt`: the model of the
stable `Array.prototype.sort` with a consistent comparator. -/
def sSort {α : Type} (lt : α → α → Bool) : List α → List α
  | [] => []
  | x :: xs => sInsert lt x (sSort lt xs)

/-- Cleanup, first guard: float dust (`|quantity| < DUST`) zeroes both
quantity and cost basis. -/
def cleanupStep1 (p : Position) : Position :=
  if |p.quantity| < DUST then { p with quantity := 0, cost_basis := 0 } else p

/-- Cleanup, second guard: a non-negative quantity with negative cost basis
is clamped to zero cost basis and zero average cost (with a logged warning). -/
def cleanupStep2 (p : Position) : Position :=
  if 0 ≤ p.quantity ∧ p.cost_basis < 0 then { p with cost_basis := 0, avg_cost := 0 } else p

/-- Cleanup, third guard: for a non-zero quantity with non-negative cost
basis, re-derive `avg_cost = cost_basis / |quantity|`. -/
def cleanupStep3 (p : Position) : Position :=
  if ¬p.quantity = 0 ∧ 0 ≤ p.cost_basis
    then { p with avg_cost := p.cost_basis / |p.quantity| } else p

/-- STEP 3 of the calculator applied to one position. -/
def cleanupPos (p : Position) : Position :=
  cleanupStep3 (cleanupStep2 (cleanupStep1 p))

/-- `calculatePositions(initialPositions, transactions, fxRateUSDTHB)`:
seed from initial balances, replay the ledger sorted by transaction date
(stable on ties), then run the cleanup pass over every position. -/
def calculatePositions (initialPositions : List InitRow) (transactions : List Tx)
    (fxRateUSDTHB : ℚ) : PosMap :=
  let seeded := initialPositions.foldl (seedStep fxRateUSDTHB) []
  let sorted := sSort (fun a b => decide (a.transaction_date < b.transaction_date)) transactions
  let folded := sorted.foldl (applyTx fxRateUSDTHB) seeded
  folded.map (fun e => (e.1, cleanupPos e.2))

/-! ### Generic facts about the stable sort -/

theorem sInsert_perm {α : Type} (lt : α → α → Bool) (x : α) (l : List α) :
    (sInsert lt x l).Perm (x :: l) := by
  induction l with
  | nil => simp [sInsert]
  | cons y l ih =>
    by_cases h : lt y x = true
    · simp only [sInsert, h, if_true]
      exact (ih.cons y).trans (List.Perm.swap x y l)
    · simp [sInsert, h]

theorem sSort_perm {α : Type} (lt : α → α → Bool) (l : List α) :
    (sSort lt l).Perm l := by
  induction l with
  | nil => simp [sSort]
  | cons x xs ih => exact (sInsert_perm lt x (sSort lt xs)).trans (ih.cons x)

theorem sInsert_pairwise {α : Type} {lt : α → α → Bool}
    (hA : ∀ a b, lt a b = true → lt b a = false)
    (hW : ∀ a b c, lt c a = true → lt c b = true ∨ lt b a = true)
    (x : α) (l : List α) (h : l.Pairwise (fun a b => lt b a = false)) :
    (sInsert lt x l).Pairwise (fun a b => lt b a = false) := by
  induction l with
  | nil => simp [sInsert]
  | cons y l ih =>
    rcases List.pairwise_cons.1 h with ⟨hy, hl⟩
    by_cases hlt : lt y x = true
    · simp only [sInsert, hlt, if_true]
      refine List.pairwise_cons.2 ⟨?_, ih hl⟩
      intro z hz
      rcases List.mem_cons.1 ((sInsert_perm lt x l).mem_iff.1 hz) with hz2 | hz2
      · subst hz2; exact hA _ _ hlt
      · exact hy z hz2
    · simp only [sInsert, hlt, if_false]
      refine List.pairwise_cons.2 ⟨?_, h⟩
      intro z hz
      rcases List.mem_cons.1 hz with hz2 | hz2
      · subst hz2
        exact Bool.eq_false_iff.2 hlt
      · rcases Bool.eq_false_or_eq_true (lt z x) with hzx | hzx
        · rcases hW x y z hzx with h1 | h1
          · rw [hy z hz2] at h1; exact absurd h1 (by simp)
          · exact absurd h1 hlt
        · exact hzx

theorem sSort_pairwise {α : Type} {lt : α → α → Bool}
    (hA : ∀ a b, lt a b = true → lt b a = false)
    (hW : ∀ a b c, lt c a = true → lt c b = true ∨ lt b a = true)
    (l : List α) : (sSort lt l).Pairwise (fun a b => lt b a = false) := by
  induction l with
  | nil => simp [sSort]
  | cons x xs ih => exact sInsert_pairwise hA hW x _ ih

theorem sInsert_filter_pos {α : Type} {lt : α → α → Bool} (P : α → Bool) (x : α)
    (l : List α) (hx : P x = true) (hq : ∀ y, P y = true → lt y x = false) :
    (sInsert lt x l).filter P = x :: l.filter P := by
  induction l with
  | nil => simp [sInsert, hx]
  | cons y l ih =>
    by_cases hlt : lt y x = true
    · have hPy : P y = false := by
        rcases Bool.eq_false_or_eq_true (P y) with h | h
        · rw [hq y h] at hlt; exact absurd hlt (by simp)
        · exact h
      simp only [sInsert, hlt, if_true, List.filter_cons, hPy]
      simpa [hPy] using ih
    · simp [sInsert, hlt, List.filter_cons, hx]

theorem sInsert_filter_neg {α : Type} {lt : α → α → Bool} (P : α → Bool) (x : α)
    (l : List α) (hx : P x = false) :
    (sInsert lt x l).filter P = l.filter P := by
  induction l with
  | nil => simp [sInsert, hx]
  | cons y l ih =>
    by_cases hlt : lt y x = true
    · simp [sInsert, hlt, List.filter_cons, ih]
    · simp [sInsert, hlt, List.filter_cons, hx]

theorem sSort_filter {α : Type} {lt : α → α → Bool} (P : α → Bool)
    (hq : ∀ a b, P a = true → P b = true → lt a b = false) (l : List α) :
    (sSort lt l).filter P = l.filter P := by
  induction l with
  | nil => rfl
  | cons x xs ih =>
    by_cases hx : P x = true
    · rw [sSort, sInsert_filter_pos P x _ hx (fun y hy => hq y x hy hx), ih,
        List.filter_cons, if_pos hx]
    · have hx0 : P x = false := by
        rcases Bool.eq_false_or_eq_true (P x) with h | h
        · exact absurd h hx
        · exact h
      rw [sSort, sInsert_filter_neg P x _ hx0, ih, List.filter_cons, if_neg (by simp [hx0])]

/-! ### Generic preservation facts about the position map -/

theorem foldl_inv {α β : Type} {P : β → Prop} {step : β → α → β} :
    ∀ (l : List α) (m : β), (∀ x ∈ l, ∀ m0, P m0 → P (step m0 x)) → P m → P (l.foldl step m)
  | [], _, _, hm => hm
  | x :: xs, m, h, hm =>
    foldl_inv xs (step m x) (fun y hy => h y (List.mem_cons_of_mem x hy))
      (h x (List.mem_cons_self x xs) m hm)

theorem withPos_forall {Q : String → Position → Prop} {m : PosMap} {t : String}
    {assetType : Option String} {cc : String} {f : Position → Position}
    (hm : ∀ k p, (k, p) ∈ m → Q k p) (hf : ∀ p, Q (strUpper t) (f p)) :
    ∀ k p, (k, p) ∈ withPos m t assetType cc f → Q k p := by
  intro k p hmem
  have hmem2 : (k, p) ∈
      (match alookup m (strUpper t) with
        | some p0 => replaceEntry m (strUpper t) (f (upgradeAT assetType p0))
        | none => m ++
            [(strUpper t, f (upgradeAT assetType (createPosition (strUpper t) assetType cc)))]) :=
    hmem
  clear hmem
  rename' hmem2 => hmem
  cases hlook : alookup m (strUpper t) with
  | some p0 =>
    rw [hlook] at hmem
    simp only [replaceEntry, List.mem_map] at hmem
    rcases hmem with ⟨e, he, heq⟩
    by_cases hk : e.1 = strUpper t
    · rw [if_pos hk] at heq
      injection heq with h1 h2
      subst h1; subst h2
      exact hf _
    · rw [if_neg hk] at heq
      subst heq
      exact hm k p he
  | none =>
    rw [hlook] at hmem
    rcases List.mem_append.1 hmem with hmem | hmem
    · exact hm k p hmem
    · have heq := List.mem_singleton.1 hmem
      injection heq with h1 h2
      subst h1; subst h2
      exact hf _

/-! ### Relating the classifier on a ticker to the classifier on its stored key -/

theorem isCashAsset_eq_upper (t : String) : isCashAsset t = isCashAssetU (strUpper t) := by
  by_cases h : t = ""
  · subst h; rfl
  · simp [isCashAsset, h]

theorem isTHBCash_eq_upper (t : String) : isTHBCash t = isTHBCashU (strUpper t) := by
  by_cases h : t = ""
  · subst h; rfl
  · simp [isTHBCash, h]

theorem cashFaceValueUSD_eq_upper (t : String) (fx : ℚ) :
    cashFaceValueUSD t fx = cashFaceU (strUpper t) fx := by
  unfold cashFaceValueUSD cashFaceU
  rw [isTHBCash_eq_upper]

theorem cashFaceU_pos (k : String) (fx : ℚ) (hfx : 0 < fx) : 0 < cashFaceU k fx := by
  unfold cashFaceU
  by_cases h : isTHBCashU k = true
  · rw [if_pos h, if_neg hfx.ne']
    positivity
  · rw [if_neg h]
    norm_num

theorem cashFaceU_of_notTHB {k : String} (h : isTHBCashU k = false) (fx : ℚ) :
    cashFaceU k fx = 1 := by
  unfold cashFaceU
  rw [h]
  simp

/-! ### The cash face-value invariant through the fold -/

/-- The shape every cash position has right after a cash mutation with face
value `c`: the average cost is `c` and the cost basis is the face value of
the quantity (signed when seeded, absolute when replayed). -/
def CashPosOK (c : ℚ) (p : Position) : Prop :=
  p.avg_cost = c ∧ (p.cost_basis = p.quantity * c ∨ p.cost_basis = |p.quantity| * c)

theorem seedUpdate_cashOK {fx : ℚ} {ticker : String}
    (h : isCashAssetU (strUpper ticker) = true) (qty avgCost : ℚ) (cur : String)
    (p : Position) :
    CashPosOK (cashFaceU (strUpper ticker) fx) (seedUpdate fx ticker qty avgCost cur p) := by
  unfold seedUpdate
  rw [if_pos (by rw [isCashAsset_eq_upper]; exact h)]
  exact ⟨cashFaceValueUSD_eq_upper .., Or.inl (by rw [cashFaceValueUSD_eq_upper])⟩

theorem toSideUpdate_cashOK {ticker : String} (h : isCashAssetU (strUpper ticker) = true)
    (unitsIn fromAmt fees txFx : ℚ) (txCur : String) (p : Position) :
    CashPosOK (cashFaceU (strUpper ticker) txFx)
      (toSideUpdate ticker unitsIn fromAmt fees txFx txCur p) := by
  unfold toSideUpdate
  rw [if_pos (by rw [isCashAsset_eq_upper]; exact h)]
  exact ⟨cashFaceValueUSD_eq_upper .., Or.inr (by rw [cashFaceValueUSD_eq_upper])⟩

theorem fromSideUpdate_cashOK {ticker : String} (h : isCashAssetU (strUpper ticker) = true)
    (fromAmt toAmt fees txFx : ℚ) (p : Position) :
    CashPosOK (cashFaceU (strUpper ticker) txFx)
      (fromSideUpdate ticker fromAmt toAmt fees txFx p) := by
  unfold fromSideUpdate
  rw [if_pos (by rw [isCashAsset_eq_upper]; exact h)]
  exact ⟨cashFaceValueUSD_eq_upper .., Or.inr (by rw [cashFaceValueUSD_eq_upper])⟩

/-- Invariant A: every cash key of the map carries the face value computed
from the one rate `fx`. -/
def InvA (fx : ℚ) (m : PosMap) : Prop :=
  ∀ k p, (k, p) ∈ m → isCashAssetU k = true → CashPosOK (cashFaceU k fx) p

/-- Invariant B: every USD-class (non-THB) cash key carries face value `1`,
whatever fx rates the ledger used. -/
def InvB (m : PosMap) : Prop :=
  ∀ k p, (k, p) ∈ m → isCashAssetU k = true → isTHBCashU k = false → CashPosOK 1 p

theorem seedStep_invA {fx : ℚ} {m : PosMap} {row : InitRow} (hm : InvA fx m) :
    InvA fx (seedStep fx m row) := by
  unfold seedStep
  split
  · exact hm
  · split
    · exact hm
    · intro k p hmem
      exact withPos_forall (Q := fun k p => isCashAssetU k = true → CashPosOK (cashFaceU k fx) p)
        hm (fun p hC => seedUpdate_cashOK hC _ _ _ p) k p hmem

theorem toStep_invA {fx : ℚ} {tx : Tx} {m : PosMap} (htx : tx.fx_rate_at_time ≤ 0)
    (hm : InvA fx m) : InvA fx (toStep fx tx m) := by
  have hrate : txEffRate fx tx = fx := by
    unfold txEffRate; exact if_neg (not_lt.2 htx)
  unfold toStep
  split
  · next tt heq =>
    split
    · intro k p hmem
      refine withPos_forall (Q := fun k p => isCashAssetU k = true → CashPosOK (cashFaceU k fx) p)
        hm (fun p hC => ?_) k p hmem
      rw [hrate]
      exact toSideUpdate_cashOK hC tx.to_amount tx.from_amount
        (if tx.fee_currency = some tt then |tx.fees| else 0) fx
        tx.transaction_currency p
    · exact hm
  · exact hm

theorem fromStep_invA {fx : ℚ} {tx : Tx} {m : PosMap} (htx : tx.fx_rate_at_time ≤ 0)
    (hm : InvA fx m) : InvA fx (fromStep fx tx m) := by
  have hrate : txEffRate fx tx = fx := by
    unfold txEffRate; exact if_neg (not_lt.2 htx)
  unfold fromStep
  split
  · next ft heq =>
    split
    · intro k p hmem
      refine withPos_forall (Q := fun k p => isCashAssetU k = true → CashPosOK (cashFaceU k fx) p)
        hm (fun p hC => ?_) k p hmem
      rw [hrate]
      exact fromSideUpdate_cashOK hC tx.from_amount tx.to_amount
        (if tx.fee_currency = some ft then |tx.fees| else 0) fx p
    · exact hm
  · exact hm

theorem seedStep_invB {fx : ℚ} {m : PosMap} {row : InitRow} (hm : InvB m) :
    InvB (seedStep fx m row) := by
  unfold seedStep
  split
  · exact hm
  · split
    · exact hm
    · intro k p hmem
      refine withPos_forall
        (Q := fun k p => isCashAssetU k = true → isTHBCashU k = false → CashPosOK 1 p)
        hm (fun p hC hT => ?_) k p hmem
      have := @seedUpdate_cashOK fx _ hC row.quantity row.avg_cost
        (if row.cost_currency = some "THB" then "THB" else "USD") p
      rwa [cashFaceU_of_notTHB hT] at this

theorem toStep_invB {fx : ℚ} {tx : Tx} {m : PosMap} (hm : InvB m) : InvB (toStep fx tx m) := by
  unfold toStep
  split
  · next tt heq =>
    split
    · intro k p hmem
      refine withPos_forall
        (Q := fun k p => isCashAssetU k = true → isTHBCashU k = false → CashPosOK 1 p)
        hm (fun p hC hT => ?_) k p hmem
      have := toSideUpdate_cashOK hC tx.to_amount tx.from_amount
        (if tx.fee_currency = some tt then |tx.fees| else 0) (txEffRate fx tx)
        tx.transaction_currency p
      rwa [cashFaceU_of_notTHB hT] at this
    · exact hm
  · exact hm

theorem fromStep_invB {fx : ℚ} {tx : Tx} {m : PosMap} (hm : InvB m) : InvB (fromStep fx tx m) := by
  unfold fromStep
  split
  · next ft heq =>
    split
    · intro k p hmem
      refine withPos_forall
        (Q := fun k p => isCashAssetU k = true → isTHBCashU k = false → CashPosOK 1 p)
        hm (fun p hC hT => ?_) k p hmem
      have := fromSideUpdate_cashOK hC tx.from_amount tx.to_amount
        (if tx.fee_currency = some ft then |tx.fees| else 0) (txEffRate fx tx) p
      rwa [cashFaceU_of_notTHB hT] at this
    · exact hm
  · exact hm

/-! ### What the cleanup pass does to each position -/

theorem cleanupPos_avg_of_cashOK {c : ℚ} {p : Position} (hc : 0 < c) (h : CashPosOK c p) :
    (cleanupPos p).avg_cost = c := by
  rcases h with ⟨ha, hcb⟩
  by_cases h1 : |p.quantity| < DUST
  · have e1 : cleanupStep1 p = { p with quantity := 0, cost_basis := 0 } := by
      unfold cleanupStep1; exact if_pos h1
    have e2 : cleanupStep2 { p with quantity := 0, cost_basis := 0 } =
        { p with quantity := 0, cost_basis := 0 } := by
      unfold cleanupStep2; apply if_neg; simp
    have e3 : cleanupStep3 { p with quantity := 0, cost_basis := 0 } =
        { p with quantity := 0, cost_basis := 0 } := by
      unfold cleanupStep3; apply if_neg; simp
    rw [cleanupPos, e1, e2, e3]
    exact ha
  · have hq0 : ¬p.quantity = 0 := by
      intro h0
      rw [h0] at h1
      exact h1 (by norm_num [DUST])
    have e1 : cleanupStep1 p = p := by unfold cleanupStep1; exact if_neg h1
    by_cases h2 : 0 ≤ p.quantity ∧ p.cost_basis < 0
    · exfalso
      rcases hcb with hcb | hcb <;> rw [hcb] at h2
      · exact absurd h2.2 (not_lt.2 (mul_nonneg h2.1 hc.le))
      · exact absurd h2.2 (not_lt.2 (mul_nonneg (abs_nonneg _) hc.le))
    · have e2 : cleanupStep2 p = p := by unfold cleanupStep2; exact if_neg h2
      by_cases h3 : ¬p.quantity = 0 ∧ 0 ≤ p.cost_basis
      · have e3 : cleanupStep3 p = { p with avg_cost := p.cost_basis / |p.quantity| } := by
          unfold cleanupStep3; exact if_pos h3
        rw [cleanupPos, e1, e2, e3]
        show p.cost_basis / |p.quantity| = c
        rcases hcb with hcb | hcb
        · have hq : 0 ≤ p.quantity := by
            by_contra hq
            push_neg at hq
            exact absurd h3.2 (not_le.2 (by rw [hcb]; exact mul_neg_of_neg_of_pos hq hc))
          rw [hcb, abs_of_nonneg hq, mul_comm]
          exact mul_div_cancel_right₀ c hq0
        · rw [hcb, mul_comm]
          exact mul_div_cancel_right₀ c (abs_ne_zero.2 hq0)
      · have e3 : cleanupStep3 p = p := by unfold cleanupStep3; exact if_neg h3
        rw [cleanupPos, e1, e2, e3]
        exact ha

theorem cleanupPos_consistent (p : Position) (h : 0 ≤ (cleanupPos p).cost_basis) :
    (cleanupPos p).cost_basis = |(cleanupPos p).quantity| * (cleanupPos p).avg_cost := by
  by_cases h1 : |p.quantity| < DUST
  · have e1 : cleanupStep1 p = { p with quantity := 0, cost_basis := 0 } := by
      unfold cleanupStep1; exact if_pos h1
    have e2 : cleanupStep2 { p with quantity := 0, cost_basis := 0 } =
        { p with quantity := 0, cost_basis := 0 } := by
      unfold cleanupStep2; apply if_neg; simp
    have e3 : cleanupStep3 { p with quantity := 0, cost_basis := 0 } =
        { p with quantity := 0, cost_basis := 0 } := by
      unfold cleanupStep3; apply if_neg; simp
    rw [cleanupPos, e1, e2, e3]
    simp
  · have hq0 : ¬p.quantity = 0 := by
      intro h0
      rw [h0] at h1
      exact h1 (by norm_num [DUST])
    have e1 : cleanupStep1 p = p := by unfold cleanupStep1; exact if_neg h1
    by_cases h2 : 0 ≤ p.quantity ∧ p.cost_basis < 0
    · have e2 : cleanupStep2 p = { p with cost_basis := 0, avg_cost := 0 } := by
        unfold cleanupStep2; exact if_pos h2
      have e3 : cleanupStep3 { p with cost_basis := 0, avg_cost := 0 } =
          { p with cost_basis := 0, avg_cost := (0 : ℚ) / |p.quantity| } := by
        unfold cleanupStep3; exact if_pos ⟨hq0, le_refl 0⟩
      rw [cleanupPos, e1, e2, e3]
      simp
    · have e2 : cleanupStep2 p = p := by unfold cleanupStep2; exact if_neg h2
      by_cases h3 : ¬p.quantity = 0 ∧ 0 ≤ p.cost_basis
      · have e3 : cleanupStep3 p = { p with avg_cost := p.cost_basis / |p.quantity| } := by
          unfold cleanupStep3; exact if_pos h3
        rw [cleanupPos, e1, e2, e3]
        show p.cost_basis = |p.quantity| * (p.cost_basis / |p.quantity|)
        rw [mul_comm]
        exact (div_mul_cancel₀ p.cost_basis (abs_ne_zero.2 hq0)).symm
      · exfalso
        have e3 : cleanupStep3 p = p := by unfold cleanupStep3; exact if_neg h3
        rw [cleanupPos, e1, e2, e3] at h
        exact h3 ⟨hq0, h⟩

theorem cleanupStep3_cb (p : Position) : (cleanupStep3 p).cost_basis = p.cost_basis := by
  unfold cleanupStep3; split <;> rfl

theorem cleanupStep3_q (p : Position) : (cleanupStep3 p).quantity = p.quantity := by
  unfold cleanupStep3; split <;> rfl

theorem cleanupStep2_q (p : Position) : (cleanupStep2 p).quantity = p.quantity := by
  unfold cleanupStep2; split <;> rfl

theorem cleanupPos_cb_nonneg (p : Position) (h : 0 ≤ (cleanupPos p).quantity) :
    0 ≤ (cleanupPos p).cost_basis := by
  rw [cleanupPos, cleanupStep3_q, cleanupStep2_q] at h
  rw [cleanupPos, cleanupStep3_cb]
  by_cases h1 : |p.quantity| < DUST
  · have e1 : cleanupStep1 p = { p with quantity := 0, cost_basis := 0 } := by
      unfold cleanupStep1; exact if_pos h1
    have e2 : cleanupStep2 { p with quantity := 0, cost_basis := 0 } =
        { p with quantity := 0, cost_basis := 0 } := by
      unfold cleanupStep2; apply if_neg; simp
    rw [e1, e2]
  · have e1 : cleanupStep1 p = p := by unfold cleanupStep1; exact if_neg h1
    rw [e1] at h ⊢
    by_cases h2 : 0 ≤ p.quantity ∧ p.cost_basis < 0
    · have e2 : cleanupStep2 p = { p with cost_basis := 0, avg_cost := 0 } := by
        unfold cleanupStep2; exact if_pos h2
      rw [e2]
    · have e2 : cleanupStep2 p = p := by unfold cleanupStep2; exact if_neg h2
      rw [e2]
      rcases not_and_or.1 h2 with hbad | hcb
      · exact absurd h hbad
      · exact not_lt.1 hcb

/-! ### Enrichment with live prices and the portfolio summary -/

/-- One price-snapshot entry: `{ price, currency, updatedAt }`.  An empty
currency string stands for an absent field (falsy, defaulted to USD). -/
structure PriceInfo where
  price : ℚ
  currency : String
  updatedAt : Option String
deriving Repr, DecidableEq

/-- The price snapshot keyed by ticker. -/
abbrev PriceMap : Type := List (String × PriceInfo)

/-- One enriched position row. -/
structure EnrichedRow where
  ticker : String
  asset_type : String
  quantity : ℚ
  is_short : Bool
  avg_cost : ℚ
  cost_basis : ℚ
  current_price : ℚ
  current_value : ℚ
  unrealized_pnl : ℚ
  unrealized_pnl_pct : ℚ
  realized_pnl : ℚ
  display_currency : String
  price_updated_at : Option String
deriving Repr, DecidableEq

/-- `Number(x.toFixed(2))`: round to 2 decimal places, ties toward the larger value. -/
def round2 (x : ℚ) : ℚ :=
  ((round (x * 100) : ℤ) : ℚ) / 100

/-- `Number(x.toFixed(4))`: round to 4 decimal places, ties toward the larger value. -/
def round4 (x : ℚ) : ℚ :=
  ((round (x * 10000) : ℤ) : ℚ) / 10000

/-- Build one enriched row from a position and the price snapshot: a missing
price entry yields price 0 (not an error), prices and costs are converted
USD↔THB into the display currency, and the P&L direction flips for shorts. -/
def enrichRow (pm : PriceMap) (fx : ℚ) (dc : String) (ticker : String) (p : Position) :
    EnrichedRow :=
  let rawPrice := match alookup pm ticker with
    | some d => d.price
    | none => 0
  let priceCur := match alookup pm ticker with
    | some d => if d.currency = "" then "USD" else d.currency
    | none => "USD"
  let dp1 := if priceCur = "USD" ∧ dc = "THB" then rawPrice * fx else rawPrice
  let displayPrice := if priceCur = "THB" ∧ dc = "USD" then rawPrice / fx else dp1
  let da1 := if p.cost_currency = "USD" ∧ dc = "THB" then p.avg_cost * fx else p.avg_cost
  let displayAvgCost := if p.cost_currency = "THB" ∧ dc = "USD" then p.avg_cost / fx else da1
  let absQty := |p.quantity|
  let currentValue := displayPrice * absQty
  let costDisplay := displayAvgCost * absQty
  let unreal := if p.quantity < 0 then costDisplay - currentValue else currentValue - costDisplay
  let pct := if 0 < costDisplay then unreal / costDisplay * 100 else 0
  let rp1 := if p.cost_currency = "USD" ∧ dc = "THB" then p.realized_pnl * fx else p.realized_pnl
  let realizedD := if p.cost_currency = "THB" ∧ dc = "USD" then rp1 / fx else rp1
  { ticker := ticker
    asset_type := p.asset_type
    quantity := p.quantity
    is_short := decide (p.quantity < 0)
    avg_cost := displayAvgCost
    cost_basis := costDisplay
    current_price := displayPrice
    current_value := if p.quantity < 0 then costDisplay - unreal else currentValue
    unrealized_pnl := unreal
    unrealized_pnl_pct := round4 pct
    realized_pnl := realizedD
    display_currency := dc
    price_updated_at :=
      match alookup pm ticker with
      | some d =>
        match d.updatedAt with
        | some u => if u = "" then none else some u
        | none => none
      | none => none }

/-- The pre-sort enriched list: every position except the fully closed
(`quantity == 0`) ones, in the iteration order of the position map. -/
def enrichRows (ps : PosMap) (pm : PriceMap) (fx : ℚ) (dc : String) : List EnrichedRow :=
  ps.filterMap (fun e => if e.2.quantity = 0 then none else some (enrichRow pm fx dc e.1 e.2))

/-- The strictly-before relation of the display sort comparator: non-cash
before cash, then larger `|current_value|` first. -/
def enrichLT (a b : EnrichedRow) : Bool :=
  (!(isCashAsset a.ticker) && isCashAsset b.ticker) ||
    ((isCashAsset a.ticker == isCashAsset b.ticker) &&
      decide (|b.current_value| < |a.current_value|))

/-- `enrichPositions(positions, priceMap, fxRateUSDTHB, displayCurrency)`. -/
def enrichPositions (ps : PosMap) (pm : PriceMap) (fx : ℚ) (dc : String) :
    List EnrichedRow :=
  sSort enrichLT (enrichRows ps pm fx dc)

/-- The summary record of `computePortfolioSummary`. -/
structure Summary where
  total_value : ℚ
  total_cost : ℚ
  unrealized_pnl : ℚ
  unrealized_pnl_pct : ℚ
  realized_pnl : ℚ
  total_pnl : ℚ
  display_currency : String
deriving Repr, DecidableEq

/-- The loop body of the summary: cash adds only its current value; non-cash
adds value, cost basis and realized P&L. -/
def sumStep (acc : ℚ × ℚ × ℚ) (r : EnrichedRow) : ℚ × ℚ × ℚ :=
  if isCashAsset r.ticker = true then (acc.1 + r.current_value, acc.2.1, acc.2.2)
  else (acc.1 + r.current_value, acc.2.1 + r.cost_basis, acc.2.2 + r.realized_pnl)

/-- `computePortfolioSummary(enrichedPositions, displayCurrency)`. -/
def computePortfolioSummary (l : List EnrichedRow) (dc : String) : Summary :=
  let t := l.foldl sumStep (0, 0, 0)
  let totalValue := t.1
  let totalCost := t.2.1
  let totalRealized := t.2.2
  let unreal := totalValue - totalCost
  let pct := if 0 < totalCost then unreal / totalCost * 100 else 0
  { total_value := round2 totalValue
    total_cost := round2 totalCost
    unrealized_pnl := round2 unreal
    unrealized_pnl_pct := round4 pct
    realized_pnl := round2 totalRealized
    total_pnl := round2 (unreal + totalRealized)
    display_currency := dc }

/-- Declarative total value: the sum of every row's current value, cash included. -/
def sumValue (l : List EnrichedRow) : ℚ :=
  (l.map (fun r => r.current_value)).sum

/-- Declarative total cost: the sum of cost bases over non-cash rows only. -/
def sumCost (l : List EnrichedRow) : ℚ :=
  ((l.filter (fun r => !(isCashAsset r.ticker))).map (fun r => r.cost_basis)).sum

/-- Declarative realized total: the sum of realized P&L over non-cash rows only. -/
def sumRealized (l : List EnrichedRow) : ℚ :=
  ((l.filter (fun r => !(isCashAsset r.ticker))).map (fun r => r.realized_pnl)).sum

theorem foldl_sumStep (l : List EnrichedRow) : ∀ a : ℚ × ℚ × ℚ,
    l.foldl sumStep a = (a.1 + sumValue l, a.2.1 + sumCost l, a.2.2 + sumRealized l) := by
  induction l with
  | nil => intro a; simp [sumValue, sumCost, sumRealized]
  | cons r l ih =>
    intro a
    rw [List.foldl_cons, ih]
    by_cases h : isCashAsset r.ticker = true
    · simp [sumStep, h, sumValue, sumCost, sumRealized, List.filter_cons, add_assoc]
    · simp [sumStep, h, sumValue, sumCost, sumRealized, List.filter_cons,
        Bool.eq_false_iff.2 h, add_assoc]

/-! ### Concrete inputs used by scenario theorems, witnesses and counterexamples -/

def exInitAAPL : InitRow :=
  { ticker := some "AAPL", asset_type := none, quantity := 10, avg_cost := 100,
    cost_currency := some "USD" }

def exInitNegUSD : InitRow :=
  { ticker := some "USD", asset_type := none, quantity := -10, avg_cost := 0,
    cost_currency := some "USD" }

def exTxBuy : Tx :=
  { from_ticker := some "USD", from_amount := 500, from_asset_type := none,
    to_ticker := some "AAPL", to_amount := 5, to_asset_type := none, fees := 0,
    fee_currency := none, transaction_currency := "USD", fx_rate_at_time := 0,
    transaction_date := 1 }

def exTxSell : Tx :=
  { from_ticker := some "AAPL", from_amount := 5, from_asset_type := none,
    to_ticker := some "USD", to_amount := 600, to_asset_type := none, fees := 0,
    fee_currency := none, transaction_currency := "USD", fx_rate_at_time := 0,
    transaction_date := 2 }

def exTxShort : Tx :=
  { from_ticker := some "TSLA", from_amount := 10, from_asset_type := none,
    to_ticker := some "USD", to_amount := 2000, to_asset_type := none, fees := 0,
    fee_currency := none, transaction_currency := "USD", fx_rate_at_time := 0,
    transaction_date := 1 }

def exTxCover : Tx :=
  { from_ticker := some "USD", from_amount := 1500, from_asset_type := none,
    to_ticker := some "TSLA", to_amount := 10, to_asset_type := none, fees := 0,
    fee_currency := none, transaction_currency := "USD", fx_rate_at_time := 0,
    transaction_date := 2 }

def exTxTHB30 : Tx :=
  { from_ticker := none, from_amount := 0, from_asset_type := none,
    to_ticker := some "THB", to_amount := 100, to_asset_type := none, fees := 0,
    fee_currency := none, transaction_currency := "USD", fx_rate_at_time := 30,
    transaction_date := 1 }

def exTxTHBnoRate : Tx :=
  { from_ticker := none, from_amount := 0, from_asset_type := none,
    to_ticker := some "THB", to_amount := 100, to_asset_type := none, fees := 0,
    fee_currency := none, transaction_currency := "USD", fx_rate_at_time := 0,
    transaction_date := 1 }

def exPosAAPL : Position :=
  { ticker := "AAPL", asset_type := "other", quantity := 10, avg_cost := 100,
    cost_basis := 1000, cost_currency := "USD", realized_pnl := 0 }

def exPosAAPL15 : Position :=
  { ticker := "AAPL", asset_type := "other", quantity := 15, avg_cost := 100,
    cost_basis := 1500, cost_currency := "USD", realized_pnl := 0 }

def exPosAAPL10 : Position :=
  { ticker := "AAPL", asset_type := "other", quantity := 10, avg_cost := 100,
    cost_basis := 1000, cost_currency := "USD", realized_pnl := 100 }

def exPosNegUSD : Position :=
  { ticker := "USD", asset_type := "other", quantity := -10, avg_cost := 1,
    cost_basis := -10, cost_currency := "USD", realized_pnl := 0 }

def exPosTSLAshort : Position :=
  { ticker := "TSLA", asset_type := "other", quantity := -10, avg_cost := 200,
    cost_basis := 2000, cost_currency := "USD", realized_pnl := 0 }

def exPosTSLAcovered : Position :=
  { ticker := "TSLA", asset_type := "other", quantity := 0, avg_cost := 200,
    cost_basis := 0, cost_currency := "USD", realized_pnl := 500 }

def exPosTHB30 : Position :=
  { ticker := "THB", asset_type := "other", quantity := 100, avg_cost := 1 / 30,
    cost_basis := 10 / 3, cost_currency := "USD", realized_pnl := 0 }

def exPosTHB35 : Position :=
  { ticker := "THB", asset_type := "other", quantity := 100, avg_cost := 1 / 35,
    cost_basis := 20 / 7, cost_currency := "USD", realized_pnl := 0 }

/-! ### Claim C1 -/

/-- Claim C1 (corrected): after `calculatePositions`, every position whose
cost basis is non-negative satisfies `costBasis = |quantity| × avgCost`
exactly (the cleanup pass re-derives `avgCost`); a position can only escape
the invariant when its final cost basis is negative, which requires a
negative quantity. -/
theorem C1_costBasis_consistent (init : List InitRow) (txs : List Tx) (fx : ℚ)
    (k : String) (p : Position) (hmem : (k, p) ∈ calculatePositions init txs fx)
    (hcb : 0 ≤ p.cost_basis) : p.cost_basis = |p.quantity| * p.avg_cost := by
  rcases List.mem_map.1 hmem with ⟨e, he, heq⟩
  injection heq with h1 h2
  subst h2
  exact cleanupPos_consistent e.2 hcb

/-- Witness for C1: the cost-basis consistency theorem applied to the AAPL
opening balance with an empty ledger. -/
theorem C1_witness :
    (("AAPL", exPosAAPL) ∈ calculatePositions [exInitAAPL] [] 35) ∧
    exPosAAPL.cost_basis = |exPosAAPL.quantity| * exPosAAPL.avg_cost :=
  ⟨of_decide_eq_true (by with_unfolding_all rfl),
    C1_costBasis_consistent [exInitAAPL] [] 35 "AAPL" exPosAAPL
      (of_decide_eq_true (by with_unfolding_all rfl))
      (of_decide_eq_true (by with_unfolding_all rfl))⟩

/-- Counterexample to C1 as stated: a USD cash balance seeded with quantity
−10 folds to `cost_basis = −10` while `|quantity| × avgCost = 10`; the
difference (20) far exceeds the 1e-6 tolerance, so the invariant does not
hold for every negative-quantity cash position. -/
theorem C1_counterexample :
    (("USD", exPosNegUSD) ∈ calculatePositions [exInitNegUSD] [] 35) ∧
    ¬|exPosNegUSD.cost_basis - |exPosNegUSD.quantity| * exPosNegUSD.avg_cost| ≤
      1 / 1000000 :=
  of_decide_eq_true (by with_unfolding_all rfl)

/-! ### Claim C2 -/

/-- Claim C2 (corrected): for every cash ticker `t` whose position survives
`calculatePositions` (keyed by the uppercased ticker), a USD-class (non-THB)
cash position ends with `avgCost = 1` exactly, whatever the ledger; and when
no ledger entry carries a positive `fx_rate_at_time`, the avg cost ends at
the face value computed from the caller's rate, `1/fx` for THB-class cash
and `1` otherwise.  (A positive per-transaction rate makes the THB face
value `1/thatRate` instead, refuting the unconditional claim.) -/
theorem C2_cash_avg_cost (init : List InitRow) (txs : List Tx) (fx : ℚ) (t : String)
    (p : Position) (hfx : 0 < fx) (hcash : isCashAsset t = true)
    (hmem : (strUpper t, p) ∈ calculatePositions init txs fx) :
    (isTHBCash t = false → p.avg_cost = 1) ∧
    ((∀ tx ∈ txs, tx.fx_rate_at_time ≤ 0) →
      p.avg_cost = if isTHBCash t = true then 1 / fx else 1) := by
  rcases List.mem_map.1 hmem with ⟨e, he, heq⟩
  injection heq with h1 h2
  subst h2
  constructor
  · intro hTHB
    have hB : InvB ((sSort (fun a b => decide (a.transaction_date < b.transaction_date))
        txs).foldl (applyTx fx) (init.foldl (seedStep fx) [])) := by
      apply foldl_inv
      · intro tx _ m0 hm0
        exact fromStep_invB (toStep_invB hm0)
      · apply foldl_inv
        · intro row _ m0 hm0
          exact seedStep_invB hm0
        · intro k0 p0 h0
          exact absurd h0 (List.not_mem_nil _)
    have hOK := hB e.1 e.2 he (by rw [h1, ← isCashAsset_eq_upper]; exact hcash)
      (by rw [h1, ← isTHBCash_eq_upper]; exact hTHB)
    exact cleanupPos_avg_of_cashOK one_pos hOK
  · intro hrates
    have hA : InvA fx ((sSort (fun a b => decide (a.transaction_date < b.transaction_date))
        txs).foldl (applyTx fx) (init.foldl (seedStep fx) [])) := by
      apply foldl_inv
      · intro tx htx m0 hm0
        have hr : tx.fx_rate_at_time ≤ 0 :=
          hrates tx ((sSort_perm _ txs).mem_iff.1 htx)
        exact fromStep_invA hr (toStep_invA hr hm0)
      · apply foldl_inv
        · intro row _ m0 hm0
          exact seedStep_invA hm0
        · intro k0 p0 h0
          exact absurd h0 (List.not_mem_nil _)
    have hOK := hA e.1 e.2 he (by rw [h1, ← isCashAsset_eq_upper]; exact hcash)
    have hface := cleanupPos_avg_of_cashOK (cashFaceU_pos e.1 fx hfx) hOK
    rw [hface, h1]
    unfold cashFaceU
    rw [← isTHBCash_eq_upper]
    by_cases hT : isTHBCash t = true
    · rw [if_pos hT, if_pos hT, if_neg hfx.ne']
    · rw [if_neg hT, if_neg hT]

/-- Witness for C2: the THB deposit with no transaction-time rate ends with
avgCost exactly `1/35` under the caller rate 35. -/
theorem C2_witness :
    ((strUpper "THB", exPosTHB35) ∈ calculatePositions [] [exTxTHBnoRate] 35) ∧
    exPosTHB35.avg_cost = 1 / 35 := by
  refine ⟨of_decide_eq_true (by with_unfolding_all rfl), ?_⟩
  have h := (C2_cash_avg_cost [] [exTxTHBnoRate] 35 "THB" exPosTHB35 (by norm_num)
      (of_decide_eq_true (by with_unfolding_all rfl))
      (of_decide_eq_true (by with_unfolding_all rfl))).2 ?_
  · rw [h, if_pos (of_decide_eq_true (by with_unfolding_all rfl))]
  · intro tx htx
    have := List.mem_singleton.1 htx
    subst this
    norm_num [exTxTHBnoRate]

/-- Counterexample to C2 as stated: a THB deposit carrying
`fx_rate_at_time = 30` ends with avgCost `1/30`, which is neither `1.0` nor
`1/fxRate = 1/35`, so the cash avg cost does depend on the ledger's own
rates. -/
theorem C2_counterexample :
    isCashAsset "THB" = true ∧
    (("THB", exPosTHB30) ∈ calculatePositions [] [exTxTHB30] 35) ∧
    ¬exPosTHB30.avg_cost = 1 ∧ ¬exPosTHB30.avg_cost = 1 / 35 :=
  of_decide_eq_true (by with_unfolding_all rfl)

/-! ### Claim C3 -/

/-- Claim C3 (confirmed): a short entry of 10 TSLA for 2000 USD on an empty
position yields quantity −10, avgCost 200, costBasis 2000; the subsequent
cover of 10 units for 1500 USD closes the short with
realizedPnL = (200 − 150) × 10 = 500. -/
theorem C3_short_entry_and_cover :
    alookup (calculatePositions [] [exTxShort] 35) "TSLA" = some exPosTSLAshort ∧
    alookup (calculatePositions [] [exTxShort, exTxCover] 35) "TSLA" =
      some exPosTSLAcovered ∧
    exPosTSLAshort.quantity = -10 ∧ exPosTSLAshort.avg_cost = 200 ∧
    exPosTSLAshort.cost_basis = 2000 ∧ exPosTSLAcovered.quantity = 0 ∧
    exPosTSLAcovered.realized_pnl = (200 - 150) * 10 :=
  of_decide_eq_true (by with_unfolding_all rfl)

/-! ### Claim C4 -/

/-- Claim C4 (confirmed): from the opening balance of 10 AAPL at 100 USD, a
BUY of 5 for 500 USD gives quantity 15, costBasis 1500, avgCost 100; a
subsequent SELL of 5 for 600 USD gives quantity 10, costBasis 1000, avgCost
100 unchanged and realizedPnL = 600 − 5 × 100 = 100. -/
theorem C4_buy_then_sell :
    alookup (calculatePositions [exInitAAPL] [exTxBuy] 35) "AAPL" = some exPosAAPL15 ∧
    alookup (calculatePositions [exInitAAPL] [exTxBuy, exTxSell] 35) "AAPL" =
      some exPosAAPL10 ∧
    exPosAAPL15.quantity = 15 ∧ exPosAAPL15.cost_basis = 1500 ∧
    exPosAAPL15.avg_cost = 100 ∧ exPosAAPL10.quantity = 10 ∧
    exPosAAPL10.cost_basis = 1000 ∧ exPosAAPL10.avg_cost = 100 ∧
    exPosAAPL10.realized_pnl = 600 - 5 * 100 :=
  of_decide_eq_true (by with_unfolding_all rfl)

/-! ### Claim C5 -/

/-- Claim C5 (corrected): after `calculatePositions`, every position with
non-negative quantity has non-negative cost basis (the cleanup clamp); a
short (negative-quantity) position can keep a negative cost basis, so the
clamp does not cover every position. -/
theorem C5_costBasis_nonneg (init : List InitRow) (txs : List Tx) (fx : ℚ)
    (k : String) (p : Position) (hmem : (k, p) ∈ calculatePositions init txs fx)
    (hq : 0 ≤ p.quantity) : 0 ≤ p.cost_basis := by
  rcases List.mem_map.1 hmem with ⟨e, he, heq⟩
  injection heq with h1 h2
  subst h2
  exact cleanupPos_cb_nonneg e.2 hq

/-- Witness for C5: the non-negativity theorem applied to the AAPL opening
balance with an empty ledger. -/
theorem C5_witness :
    (("AAPL", exPosAAPL) ∈ calculatePositions [exInitAAPL] [] 35) ∧
    0 ≤ exPosAAPL.cost_basis :=
  ⟨of_decide_eq_true (by with_unfolding_all rfl),
    C5_costBasis_nonneg [exInitAAPL] [] 35 "AAPL" exPosAAPL
      (of_decide_eq_true (by with_unfolding_all rfl))
      (of_decide_eq_true (by with_unfolding_all rfl))⟩

/-- Counterexample to C5 as stated: the USD cash balance seeded with
quantity −10 is returned with `cost_basis = −10 < 0`; the clamp only fires
for non-negative quantities. -/
theorem C5_counterexample :
    (("USD", exPosNegUSD) ∈ calculatePositions [exInitNegUSD] [] 35) ∧
    exPosNegUSD.cost_basis < 0 :=
  of_decide_eq_true (by with_unfolding_all rfl)

/-! ### Claim C6 -/

/-- Claim C6 (corrected): the cash face-value function falls back to the
default rate 35 only for a zero fx rate; a USD-class ticker always gets
face value 1 (never Infinity, NaN or negative), but a THB-class ticker with
a negative rate gets `1/fxRate`, which is negative — the fallback does not
cover negative rates. -/
theorem C6_fx_fallback (t : String) (fx : ℚ) :
    (fx = 0 → cashFaceValueUSD t fx = if isTHBCash t = true then 1 / (35 : ℚ) else 1) ∧
    (isTHBCash t = false → cashFaceValueUSD t fx = 1) ∧
    (fx < 0 → isTHBCash t = true → cashFaceValueUSD t fx = 1 / fx) := by
  refine ⟨?_, ?_, ?_⟩
  · intro h0
    subst h0
    unfold cashFaceValueUSD
    by_cases hT : isTHBCash t = true
    · rw [if_pos hT, if_pos hT, if_pos rfl]
    · rw [if_neg hT, if_neg hT]
  · intro hT
    unfold cashFaceValueUSD
    rw [hT]
    simp
  · intro hneg hT
    unfold cashFaceValueUSD
    rw [if_pos hT, if_neg hneg.ne]

/-- Counterexample to C6 as stated: at fx rate −5 the THB face value is
−1/5 — negative, and not the value computed with the default 35. -/
theorem C6_counterexample :
    cashFaceValueUSD "THB" (-5) < 0 ∧
    ¬cashFaceValueUSD "THB" (-5) = 1 / 35 ∧
    isTHBCash "THB" = true :=
  of_decide_eq_true (by with_unfolding_all rfl)

/-! ### Claim C7 -/

theorem enrichRows_length (ps : PosMap) (pm : PriceMap) (fx : ℚ) (dc : String) :
    (enrichRows ps pm fx dc).length =
      (ps.filter (fun e => decide (¬e.2.quantity = 0))).length := by
  induction ps with
  | nil => rfl
  | cons e ps ih =>
    by_cases h : e.2.quantity = 0
    · simp [enrichRows, List.filterMap_cons, List.filter_cons, h] at ih ⊢
      exact ih
    · simp [enrichRows, List.filterMap_cons, List.filter_cons, h] at ih ⊢
      exact ih

theorem enrichRow_no_price {pm : PriceMap} {fx : ℚ} {dc : String} {k : String}
    {p : Position} (hnone : alookup pm k = none) :
    (enrichRow pm fx dc k p).current_price = 0 ∧
      (enrichRow pm fx dc k p).current_value = 0 := by
  unfold enrichRow
  rw [hnone]
  constructor
  · simp only []
    split_ifs <;> simp
  · simp only []
    split_ifs <;> simp

/-- Claim C7 (corrected): `enrichPositions` skips exactly the zero-quantity
positions — one output row per remaining position — and a position whose
ticker is missing from the price snapshot still produces a row, with
current price 0 and current value 0, rather than being omitted. -/
theorem C7_missing_price_row (ps : PosMap) (pm : PriceMap) (fx : ℚ) (dc : String) :
    (enrichPositions ps pm fx dc).length =
      (ps.filter (fun e => decide (¬e.2.quantity = 0))).length ∧
    ∀ r ∈ enrichPositions ps pm fx dc, alookup pm r.ticker = none →
      r.current_price = 0 ∧ r.current_value = 0 := by
  constructor
  · unfold enrichPositions
    rw [(sSort_perm enrichLT (enrichRows ps pm fx dc)).length_eq]
    exact enrichRows_length ps pm fx dc
  · intro r hr hnone
    have hr2 : r ∈ enrichRows ps pm fx dc :=
      (sSort_perm enrichLT (enrichRows ps pm fx dc)).mem_iff.1 hr
    rcases List.mem_filterMap.1 hr2 with ⟨e, he, heq⟩
    by_cases h : e.2.quantity = 0
    · rw [if_pos h] at heq
      exact absurd heq (by simp)
    · rw [if_neg h] at heq
      have hre := Option.some.inj heq
      subst hre
      exact enrichRow_no_price hnone

def exRowAAPLnoPrice : EnrichedRow :=
  { ticker := "AAPL", asset_type := "other", quantity := 10, is_short := false,
    avg_cost := 100, cost_basis := 1000, current_price := 0, current_value := 0,
    unrealized_pnl := -1000, unrealized_pnl_pct := -100, realized_pnl := 0,
    display_currency := "USD", price_updated_at := none }

/-- Counterexample to C7 as stated: with an empty price snapshot the AAPL
position (quantity 10) still yields one enriched row — with price 0 — not
zero rows as the claim predicts. -/
theorem C7_counterexample :
    alookup ([] : PriceMap) "AAPL" = none ∧
    enrichPositions [("AAPL", exPosAAPL)] [] 35 "USD" = [exRowAAPLnoPrice] :=
  of_decide_eq_true (by with_unfolding_all rfl)

/-! ### Claim C8 -/

/-- Claim C8 (confirmed): the portfolio summary adds a cash row's current
value only into totalValue and never into totalCost or the realized
aggregate, adds all three figures for non-cash rows, sets
unrealizedPnL = totalValue − totalCost, defines the percentage as 0 when
totalCost is 0, and rounds currency outputs to 2 decimals and the
percentage to 4. -/
theorem C8_summary_totals (l : List EnrichedRow) (dc : String) :
    computePortfolioSummary l dc =
      { total_value := round2 (sumValue l)
        total_cost := round2 (sumCost l)
        unrealized_pnl := round2 (sumValue l - sumCost l)
        unrealized_pnl_pct :=
          if 0 < sumCost l then round4 ((sumValue l - sumCost l) / sumCost l * 100) else 0
        realized_pnl := round2 (sumRealized l)
        total_pnl := round2 (sumValue l - sumCost l + sumRealized l)
        display_currency := dc } ∧
    (sumCost l = 0 → (computePortfolioSummary l dc).unrealized_pnl_pct = 0) := by
  have hmain : computePortfolioSummary l dc =
      { total_value := round2 (sumValue l)
        total_cost := round2 (sumCost l)
        unrealized_pnl := round2 (sumValue l - sumCost l)
        unrealized_pnl_pct :=
          if 0 < sumCost l then round4 ((sumValue l - sumCost l) / sumCost l * 100) else 0
        realized_pnl := round2 (sumRealized l)
        total_pnl := round2 (sumValue l - sumCost l + sumRealized l)
        display_currency := dc } := by
    unfold computePortfolioSummary
    rw [foldl_sumStep l (0, 0, 0)]
    have hz : round4 0 = 0 := by
      unfold round4
      norm_num
    simp only [zero_add, apply_ite round4, hz]
  refine ⟨hmain, fun h0 => ?_⟩
  rw [hmain]
  simp [h0]

/-! ### Claim C9 -/

theorem enrichLT_asymm : ∀ a b : EnrichedRow, enrichLT a b = true → enrichLT b a = false := by
  intro a b h
  unfold enrichLT at h ⊢
  cases hca : isCashAsset a.ticker <;> cases hcb : isCashAsset b.ticker <;>
      simp [hca, hcb] at h ⊢ <;> linarith

theorem enrichLT_weak : ∀ a b c : EnrichedRow,
    enrichLT c a = true → enrichLT c b = true ∨ enrichLT b a = true := by
  intro a b c h
  unfold enrichLT at h ⊢
  cases hca : isCashAsset a.ticker <;> cases hcb : isCashAsset b.ticker <;>
      cases hcc : isCashAsset c.ticker <;> simp [hca, hcb, hcc] at h ⊢ <;>
    rcases lt_or_le |a.current_value| |b.current_value| with h1 | h1
  · exact Or.inr h1
  · exact Or.inl (by linarith)
  · exact Or.inr h1
  · exact Or.inl (by linarith)

theorem enrichLT_not_rev {a b : EnrichedRow} (h : enrichLT b a = false) :
    (isCashAsset a.ticker = true → isCashAsset b.ticker = true) ∧
    (isCashAsset a.ticker = isCashAsset b.ticker →
      |b.current_value| ≤ |a.current_value|) := by
  unfold enrichLT at h
  cases hca : isCashAsset a.ticker <;> cases hcb : isCashAsset b.ticker <;>
      simp [hca, hcb] at h ⊢ <;> linarith

theorem enrichLT_tie {c : Bool} {v : ℚ} : ∀ a b : EnrichedRow,
    (isCashAsset a.ticker == c && decide (|a.current_value| = v)) = true →
    (isCashAsset b.ticker == c && decide (|b.current_value| = v)) = true →
    enrichLT a b = false := by
  intro a b ha hb
  simp only [Bool.and_eq_true, beq_iff_eq, decide_eq_true_eq] at ha hb
  unfold enrichLT
  simp [ha.1, ha.2, hb.1, hb.2]

/-- Claim C9 (confirmed): the list returned by `enrichPositions` is a
permutation of the per-position rows in map-iteration order, every cash-like
row comes after every non-cash row, within each group rows are ordered by
`|currentValue|` descending, and rows with equal sort keys keep the original
iteration order (stability, stated as filter-invariance on every tie
class). -/
theorem C9_display_order (ps : PosMap) (pm : PriceMap) (fx : ℚ) (dc : String) :
    (enrichPositions ps pm fx dc).Perm (enrichRows ps pm fx dc) ∧
    (enrichPositions ps pm fx dc).Pairwise (fun a b =>
      (isCashAsset a.ticker = true → isCashAsset b.ticker = true) ∧
      (isCashAsset a.ticker = isCashAsset b.ticker →
        |b.current_value| ≤ |a.current_value|)) ∧
    (∀ (c : Bool) (v : ℚ),
      (enrichPositions ps pm fx dc).filter
          (fun r => isCashAsset r.ticker == c && decide (|r.current_value| = v)) =
        (enrichRows ps pm fx dc).filter
          (fun r => isCashAsset r.ticker == c && decide (|r.current_value| = v))) := by
  refine ⟨sSort_perm enrichLT _, ?_, ?_⟩
  · exact (sSort_pairwise enrichLT_asymm enrichLT_weak _).imp
      (fun h => enrichLT_not_rev h)
  · intro c v
    exact sSort_filter _ (fun a b ha hb => enrichLT_tie a b ha hb) _

/-! ### Claim C10 -/

/-- Claim C10 (confirmed): a non-cash TO-side receive into a short position
covers exactly `min(toAmount, |quantity|)` units: the quantity rises by that
amount and never crosses zero, the average cost is preserved, the cost basis
is re-derived from the remaining short size, the realized P&L books
`(avgCost − fromAmount/unitsCovered) × unitsCovered`, and units beyond the
open short size are discarded — the update equals the update with toAmount
clamped to the open short size. -/
theorem C10_short_cover (t : String) (p : Position) (unitsIn fromAmt fees txFx : ℚ)
    (txCur : String) (hc : isCashAsset t = false) (hq : p.quantity < 0)
    (hu : 0 < unitsIn) :
    (toSideUpdate t unitsIn fromAmt fees txFx txCur p).quantity =
      p.quantity + min unitsIn |p.quantity| ∧
    (toSideUpdate t unitsIn fromAmt fees txFx txCur p).quantity ≤ 0 ∧
    (toSideUpdate t unitsIn fromAmt fees txFx txCur p).avg_cost = p.avg_cost ∧
    (toSideUpdate t unitsIn fromAmt fees txFx txCur p).cost_basis =
      |(toSideUpdate t unitsIn fromAmt fees txFx txCur p).quantity| * p.avg_cost ∧
    (toSideUpdate t unitsIn fromAmt fees txFx txCur p).realized_pnl =
      p.realized_pnl +
        (p.avg_cost - fromAmt / min unitsIn |p.quantity|) * min unitsIn |p.quantity| ∧
    toSideUpdate t (min unitsIn |p.quantity|) fromAmt fees txFx txCur p =
      toSideUpdate t unitsIn fromAmt fees txFx txCur p := by
  have hmin : 0 < min unitsIn |p.quantity| := lt_min hu (abs_pos.2 hq.ne)
  have hminmin : min (min unitsIn |p.quantity|) |p.quantity| = min unitsIn |p.quantity| :=
    min_eq_left (min_le_right _ _)
  unfold toSideUpdate
  rw [if_neg (by simp [hc]), if_pos hq]
  simp only [hminmin, if_pos hmin]
  refine ⟨by trivial, ?_, by trivial, by trivial, by trivial,
    by rw [if_neg (by simp [hc]), if_pos hq]⟩
  have h1 : min unitsIn |p.quantity| ≤ |p.quantity| := min_le_right _ _
  have h2 : |p.quantity| = -p.quantity := abs_of_neg hq
  have h3 : min unitsIn |p.quantity| ≤ -p.quantity := h1.trans (le_of_eq h2)
  linarith [h3]

/-- Witness for C10: the short-cover theorem applied to the −10 TSLA short
covered with a 10-unit receive for 1500 USD. -/
theorem C10_witness :
    (toSideUpdate "TSLA" 10 1500 0 35 "USD" exPosTSLAshort).quantity =
      exPosTSLAshort.quantity + min 10 |exPosTSLAshort.quantity| ∧
    (toSideUpdate "TSLA" 10 1500 0 35 "USD" exPosTSLAshort).realized_pnl =
      exPosTSLAshort.realized_pnl +
        (exPosTSLAshort.avg_cost - 1500 / min 10 |exPosTSLAshort.quantity|) *
          min 10 |exPosTSLAshort.quantity| := by
  have h := C10_short_cover "TSLA" exPosTSLAshort 10 1500 0 35 "USD"
    (of_decide_eq_true (by with_unfolding_all rfl))
    (of_decide_eq_true (by with_unfolding_all rfl))
    (by norm_num)
  exact ⟨h.1, h.2.2.2.2.1⟩

end PF
